import Mathlib

/-!
# Verification of the Tracker icon generators

Shallow embedding of the two icon-generation scripts:

* `IconB` embeds `src/generate_icon.py` (Pipeline B: infinity-symbol icon:
  radial gradient, lemniscate sampling, rainbow interpolation, thick stroke,
  rounded-corner mask).
* `IconA` embeds `src/Resources/generate_icon.py` (Pipeline A: pattern icon:
  linear gradient, circle/line overlays, radial glow, rounded-corner mask,
  multi-resolution export).

Python arithmetic conventions used throughout:

* Python `int(x)` truncates toward zero: embedded as `pyInt` on `ℚ`
  (floats are modelled as exact rationals).
* Python `//` on integers is floor division: embedded as `Int.fdiv`.
* Python `range(a, b)` is the half-open integer interval: `pythonRange`.

PIL library calls are modelled from their documented contracts:

* `ImageDraw.ellipse(xy)` requires an ordered bounding box
  (`x1 >= x0`, `y1 >= y0`); Pillow raises `ValueError` otherwise.
  `ellipseBBoxOK` captures this precondition.
* `ImageDraw.rounded_rectangle(xy, radius)` clamps the corner diameter
  `d = 2*radius` to the side length and fills the union of the two central
  bands and the four corner discs of radius `d/2`; `inRoundedRect` is that
  closed region, with a mask pixel `(x, y)` sampled at its integer point.
* `Image.alpha_composite` requires equally sized images and returns that
  size; `Image.new(mode, s)` allocates size `s`; `paste`/`putalpha` keep
  the base image's size.  The `Dims` functions track only sizes.
-/

namespace Tracker

/-- Python `int()` applied to a (rational-modelled) float: truncation
toward zero. -/
def pyInt (q : ℚ) : ℤ :=
  if q < 0 then -(Rat.floor (-q)) else Rat.floor q

/-- Python `range(a, b)` as a list of integers. -/
def pythonRange (a b : ℤ) : List ℤ :=
  (List.range (b - a).toNat).map (fun (i : ℕ) => a + (i : ℤ))

theorem ratFloor_eq_intFloor (q : ℚ) : Rat.floor q = Int.floor q := by
  rw [Rat.floor_def' q, Rat.floor_def]

theorem pyInt_of_nonneg {q : ℚ} (h : 0 ≤ q) : pyInt q = Int.floor q := by
  unfold pyInt
  rw [if_neg (not_lt.mpr h), ratFloor_eq_intFloor]

theorem mem_pythonRange {a b o : ℤ} :
    o ∈ pythonRange a b ↔ a ≤ o ∧ o < b := by
  unfold pythonRange
  constructor
  · intro h
    obtain ⟨i, hi, hio⟩ := List.mem_map.mp h
    rw [List.mem_range] at hi
    omega
  · intro h
    refine List.mem_map.mpr ⟨(o - a).toNat, ?_, ?_⟩
    · rw [List.mem_range]
      omega
    · omega

end Tracker

namespace IconB

open Tracker

/-- The seven rainbow anchor colors of `get_rainbow_color`
(`src/generate_icon.py` lines 57-65). -/
def rainbowColors : List (ℤ × ℤ × ℤ) :=
  [(255, 0, 0), (255, 127, 0), (255, 255, 0), (0, 255, 0),
   (0, 127, 255), (75, 0, 130), (148, 0, 211)]

/-- One channel of the integer-truncating linear blend
(`src/generate_icon.py` lines 78-80). -/
def blendChannel (c1 c2 : ℤ) (ratio : ℚ) : ℤ :=
  pyInt ((c1 : ℚ) * (1 - ratio) + (c2 : ℚ) * ratio)

/-- `get_rainbow_color` (`src/generate_icon.py` lines 54-82): position is a
float, modelled as an exact rational. -/
def get_rainbow_color (position : ℚ) : ℤ × ℤ × ℤ :=
  let n : ℤ := (rainbowColors.length : ℤ)
  let scaled_pos : ℚ := position * ((n : ℚ) - 1)
  let idx : ℤ := pyInt scaled_pos
  if n - 1 ≤ idx then rainbowColors.getLastD (0, 0, 0)
  else
    let ratio : ℚ := scaled_pos - (idx : ℚ)
    let c1 := rainbowColors.getD idx.toNat (0, 0, 0)
    let c2 := rainbowColors.getD (idx.toNat + 1) (0, 0, 0)
    (blendChannel c1.1 c2.1 ratio,
     blendChannel c1.2.1 c2.2.1 ratio,
     blendChannel c1.2.2 c2.2.2 ratio)

/-- `line_width = int(size * 0.08)` (`src/generate_icon.py` line 104). -/
def line_width (size : ℕ) : ℤ :=
  pyInt ((size : ℚ) * (8 / 100))

/-- The offsets of the thick-stroke loop
(`src/generate_icon.py` line 116): `range(-line_width//2, line_width//2)`.
Python parses `-line_width//2` as `(-line_width)//2` and `//` is floor
division. -/
def strokeOffsets (w : ℤ) : List ℤ :=
  pythonRange (Int.fdiv (-w) 2) (Int.fdiv w 2)

/-- A 1-pixel-positioned line draw (endpoints only; the constant fill color
and `width=3` of the source are not needed by the claims). -/
structure Seg where
  p1 : ℚ × ℚ
  p2 : ℚ × ℚ
  deriving DecidableEq

/-- The list of line draws the thick-stroke loop issues for one consecutive
point pair (`src/generate_icon.py` lines 116-126): for each offset, one
y-shifted copy and one x-shifted copy. -/
def thickSegmentLines (x1 y1 x2 y2 : ℚ) (w : ℤ) : List Seg :=
  (strokeOffsets w).flatMap (fun o =>
    [⟨(x1, y1 + (o : ℚ)), (x2, y2 + (o : ℚ))⟩,
     ⟨(x1 + (o : ℚ), y1), (x2 + (o : ℚ), y2)⟩])

/-- Index pairs of the segments drawn by the stroke loop
(`src/generate_icon.py` lines 106-113): `for i in range(len(points) - 1)`
draws the pair `(points[i], points[i+1])`. -/
def drawnSegmentPairs (n : ℕ) : List (ℕ × ℕ) :=
  (List.range (n - 1)).map (fun i => (i, i + 1))

/-- The position fed to the rainbow interpolator for segment `i`
(`src/generate_icon.py` line 108): `position = i / len(points)`. -/
def segmentPosition (n i : ℕ) : ℚ :=
  (i : ℚ) / (n : ℚ)

/-- One sampled point of the lemniscate
(`src/generate_icon.py` lines 42-50): `t = 2*pi*i/num_points`,
`denominator = 1 + sin(t)**2`, `x = cx + (a*cos t)/denominator`,
`y = cy + (b*sin t*cos t)/denominator` with `a = width/2`, `b = height/2`. -/
noncomputable def lemPoint (cx cy width height : ℝ) (n i : ℕ) : ℝ × ℝ :=
  let t : ℝ := 2 * Real.pi * (i : ℝ) / (n : ℝ)
  let a : ℝ := width / 2
  let b : ℝ := height / 2
  let denominator : ℝ := 1 + Real.sin t ^ 2
  (cx + a * Real.cos t / denominator,
   cy + b * Real.sin t * Real.cos t / denominator)

/-- The point list built by `draw_infinity_symbol`
(`src/generate_icon.py` lines 33-52). -/
noncomputable def draw_infinity_symbol (cx cy width height : ℝ) (num_points : ℕ) :
    List (ℝ × ℝ) :=
  (List.range num_points).map (lemPoint cx cy width height num_points)

/-- Squared Euclidean distance between two sampled points. -/
def dist2 (p q : ℝ × ℝ) : ℝ :=
  (p.1 - q.1) ^ 2 + (p.2 - q.2) ^ 2

/-- Canvas sizes allocated by `create_app_icon` (`src/generate_icon.py`
lines 84-150), in allocation order: the gradient base (`Image.new('RGB',
(size, size))`), the mask (`Image.new('L', (size, size))`), the RGBA
output (`Image.new('RGBA', (size, size))`), and the opaque-white final
image (`Image.new('RGB', (size, size))`). -/
def create_app_icon_allocs (size : ℕ) : List (ℕ × ℕ) :=
  [(size, size), (size, size), (size, size), (size, size)]

/-- Size bookkeeping of `create_app_icon` (`src/generate_icon.py` lines
84-150): `paste` and `putalpha` keep the base image's size (`putalpha`
fails on no claim-relevant condition here since the mask is pasted into
the alpha band); the saved image is the final `RGB` canvas after `paste`. -/
def create_app_icon_dims (size : ℕ) : ℕ × ℕ :=
  let output := (size, size)
  let output := (output.1, output.2)   -- output.paste(img, (0, 0)) keeps dims
  let output := (output.1, output.2)   -- output.putalpha(mask) keeps dims
  let final := (size, size)
  let final := (fun _ => (final.1, final.2)) output  -- final.paste(output, ...)
  final

end IconB

namespace IconA

open Tracker

/-- One channel of one scanline of the linear gradient
(`src/Resources/generate_icon.py` lines 16-18):
`int(c1 + (c2 - c1) * y / height)`. -/
def gradChannel (c1 c2 : ℤ) (y height : ℕ) : ℤ :=
  pyInt ((c1 : ℚ) + ((c2 : ℚ) - (c1 : ℚ)) * (y : ℚ) / (height : ℚ))

/-- The scanline color of `create_gradient_background`
(`src/Resources/generate_icon.py` lines 15-19). -/
def gradientLine (c1 c2 : (ℤ × ℤ × ℤ)) (y height : ℕ) : ℤ × ℤ × ℤ :=
  (gradChannel c1.1 c2.1 y height,
   gradChannel c1.2.1 c2.2.1 y height,
   gradChannel c1.2.2 c2.2.2 y height)

/-- Radius of glow circle `i` (`src/Resources/generate_icon.py` line 141):
`radius = size // 2 - i * 5`. -/
def glowRadius (size : ℕ) (i : ℕ) : ℤ :=
  Int.fdiv (size : ℤ) 2 - (i : ℤ) * 5

/-- Alpha of glow circle `i` (`src/Resources/generate_icon.py` line 140):
`alpha = int(30 - i * 1.5)`. -/
def glowAlpha (i : ℕ) : ℤ :=
  pyInt (30 - (i : ℚ) * (3 / 2))

/-- The 20 (radius, alpha) pairs of the radial glow loop
(`src/Resources/generate_icon.py` lines 139-146). -/
def glowCircles (size : ℕ) : List (ℤ × ℤ) :=
  (List.range 20).map (fun i => (glowRadius size i, glowAlpha i))

/-- Documented PIL precondition of `ImageDraw.ellipse`: the bounding box
must be ordered (`x1 >= x0` and `y1 >= y0`); Pillow raises `ValueError`
otherwise. -/
def ellipseBBoxOK (x0 y0 x1 y1 : ℤ) : Prop :=
  x0 ≤ x1 ∧ y0 ≤ y1

instance (x0 y0 x1 y1 : ℤ) : Decidable (ellipseBBoxOK x0 y0 x1 y1) := by
  unfold ellipseBBoxOK
  infer_instance

/-- Whether glow iteration `i` issues a well-defined ellipse draw
(`src/Resources/generate_icon.py` lines 142-146): the bounding box is
`[cx - radius, cy - radius, cx + radius, cy + radius]` with
`cx = cy = size // 2`. -/
def glowStepOK (size : ℕ) (i : ℕ) : Prop :=
  let c : ℤ := Int.fdiv (size : ℤ) 2
  let r : ℤ := glowRadius size i
  ellipseBBoxOK (c - r) (c - r) (c + r) (c + r)

instance (size i : ℕ) : Decidable (glowStepOK size i) := by
  unfold glowStepOK
  infer_instance

/-- Canvas sizes allocated by `create_icon` (`src/Resources/generate_icon.py`
lines 112-167), in allocation order: the gradient base, the lines overlay,
the circles overlay, the glow overlay, the mask, and the RGBA output. -/
def create_icon_allocs (size : ℕ) : List (ℕ × ℕ) :=
  [(size, size), (size, size), (size, size), (size, size), (size, size), (size, size)]

/-- Size bookkeeping of `create_icon` (`src/Resources/generate_icon.py`
lines 112-167).  `Image.alpha_composite` requires both images to have the
same size and returns that size (PIL raises `ValueError` otherwise), so the
composite steps are threaded through `Option`. -/
def alphaCompositeDims (im1 im2 : ℕ × ℕ) : Option (ℕ × ℕ) :=
  if im1 = im2 then some im1 else none

/-- The size of the image returned by `create_icon`
(`src/Resources/generate_icon.py` lines 112-167), `none` if a composite
step would fail. -/
def create_icon_dims (size : ℕ) : Option (ℕ × ℕ) := do
  let img := (size, size)                       -- gradient base
  let lines_overlay := (size, size)
  let img ← alphaCompositeDims img lines_overlay
  let circles_overlay := (size, size)
  let img ← alphaCompositeDims img circles_overlay
  let glow_overlay := (size, size)
  let img ← alphaCompositeDims img glow_overlay
  let output := (size, size)
  let output := (fun _ => (output.1, output.2)) img   -- output.paste(img) keeps dims
  let mask := (size, size)
  let output := (fun _ => (output.1, output.2)) mask  -- output.putalpha(mask) keeps dims
  pure output

end IconA

namespace Tracker

/-- Corner radius of the rounded-rectangle mask as PIL effectively uses
it: `ImageDraw.rounded_rectangle` clamps the corner diameter `2*radius`
to the box side length, here `size`. -/
def cornerRad (size radius : ℕ) : ℚ :=
  min (2 * (radius : ℚ)) (size : ℚ) / 2

/-- The rounded-rectangle mask region, modelled from PIL's documented
`ImageDraw.rounded_rectangle` on the box `[(0, 0), (size, size)]` with
`fill=255`: with `r` the clamped corner radius, the filled region is the
union of the vertical band, the horizontal band and the four corner discs
of radius `r`.  A mask pixel `(x, y)` is sampled at its integer point. -/
def inRoundedRect (size radius : ℕ) (x y : ℚ) : Prop :=
  (cornerRad size radius ≤ x ∧ x ≤ (size : ℚ) - cornerRad size radius) ∨
  (cornerRad size radius ≤ y ∧ y ≤ (size : ℚ) - cornerRad size radius) ∨
  (x - cornerRad size radius) ^ 2 + (y - cornerRad size radius) ^ 2
    ≤ cornerRad size radius ^ 2 ∨
  (x - ((size : ℚ) - cornerRad size radius)) ^ 2 + (y - cornerRad size radius) ^ 2
    ≤ cornerRad size radius ^ 2 ∨
  (x - cornerRad size radius) ^ 2 + (y - ((size : ℚ) - cornerRad size radius)) ^ 2
    ≤ cornerRad size radius ^ 2 ∨
  (x - ((size : ℚ) - cornerRad size radius)) ^ 2
    + (y - ((size : ℚ) - cornerRad size radius)) ^ 2
    ≤ cornerRad size radius ^ 2

instance (size radius : ℕ) (x y : ℚ) : Decidable (inRoundedRect size radius x y) := by
  unfold inRoundedRect
  infer_instance

/-- `corner_radius = int(size * 0.2237)`, the iOS-style corner radius both
pipelines pass to `rounded_rectangle` (`src/Resources/generate_icon.py`
line 155, `src/generate_icon.py` line 133). -/
def corner_radius (size : ℕ) : ℤ :=
  pyInt ((size : ℚ) * (2237 / 10000))

/-- The mask pixel value at `(x, y)`: the mask starts as a black (`0`)
`L`-mode canvas and the rounded rectangle is filled with `255`
(`src/Resources/generate_icon.py` lines 151-160, `src/generate_icon.py`
lines 129-138). -/
def maskValue (size radius : ℕ) (x y : ℕ) : ℕ :=
  if inRoundedRect size radius (x : ℚ) (y : ℚ) then 255 else 0

/-- The center pixel `(size // 2, size // 2)` used by both pipelines. -/
def centerPixel (size : ℕ) : ℕ :=
  size / 2

theorem pyInt_intCast (a : ℤ) : pyInt ((a : ℚ)) = a := by
  unfold pyInt
  split
  · rw [ratFloor_eq_intFloor,
      show (-(a : ℚ)) = (((-a : ℤ) : ℚ)) by push_cast; ring,
      Int.floor_intCast]
    ring
  · rw [ratFloor_eq_intFloor, Int.floor_intCast]

theorem pyInt_bounds {lo hi : ℤ} {q : ℚ} (hlo : (lo : ℚ) ≤ q) (hhi : q ≤ (hi : ℚ)) :
    lo ≤ pyInt q ∧ pyInt q ≤ hi := by
  unfold pyInt
  split
  · next hneg =>
    rw [ratFloor_eq_intFloor]
    constructor
    · have h1 : Int.floor (-q) ≤ -lo := by
        rw [show (-lo) = Int.floor ((((-lo : ℤ)) : ℚ)) by rw [Int.floor_intCast]]
        apply Int.floor_le_floor
        push_cast
        linarith
      omega
    · have h2 : -hi ≤ Int.floor (-q) := by
        apply Int.le_floor.mpr
        push_cast
        linarith
      omega
  · rw [ratFloor_eq_intFloor]
    constructor
    · exact Int.le_floor.mpr hlo
    · have h2 : Int.floor q ≤ Int.floor (((hi : ℤ) : ℚ)) := Int.floor_le_floor hhi
      rwa [Int.floor_intCast] at h2

end Tracker

namespace IconB

open Tracker

theorem blendChannel_bounds {a b : ℤ} {ρ : ℚ} (h0 : 0 ≤ ρ) (h1 : ρ ≤ 1) :
    min a b ≤ blendChannel a b ρ ∧ blendChannel a b ρ ≤ max a b := by
  unfold blendChannel
  refine pyInt_bounds ?_ ?_
  · push_cast
    rcases le_total (a : ℚ) (b : ℚ) with hab | hab
    · rw [min_eq_left hab]
      nlinarith
    · rw [min_eq_right hab]
      nlinarith
  · push_cast
    rcases le_total (a : ℚ) (b : ℚ) with hab | hab
    · rw [max_eq_right hab]
      nlinarith
    · rw [max_eq_left hab]
      nlinarith

theorem blendChannel_same (a : ℤ) (ρ : ℚ) : blendChannel a a ρ = a := by
  unfold blendChannel
  rw [show (a : ℚ) * (1 - ρ) + (a : ℚ) * ρ = (a : ℚ) by ring, pyInt_intCast]

theorem blendChannel_lt_right {a b : ℤ} {ρ : ℚ} (hab : a < b) (ha : 0 ≤ a)
    (h0 : 0 ≤ ρ) (h1 : ρ < 1) : blendChannel a b ρ < b := by
  unfold blendChannel
  have ha' : (0 : ℚ) ≤ (a : ℚ) := by exact_mod_cast ha
  have hab' : (a : ℚ) < (b : ℚ) := by exact_mod_cast hab
  have hval0 : (0 : ℚ) ≤ (a : ℚ) * (1 - ρ) + (b : ℚ) * ρ := by nlinarith
  rw [pyInt_of_nonneg hval0, Int.floor_lt]
  nlinarith

/-- For a position at or above 1, `get_rainbow_color` returns the last
anchor without interpolation (lines 70-71 of the source). -/
theorem rainbow_top {p : ℚ} (hp : 1 ≤ p) : get_rainbow_color p = (148, 0, 211) := by
  simp only [get_rainbow_color]
  rw [if_pos]
  · rfl
  · have hlen : ((rainbowColors.length : ℤ) : ℚ) - 1 = 6 := by
      norm_num [rainbowColors]
    rw [hlen, pyInt_of_nonneg (by linarith)]
    have : (rainbowColors.length : ℤ) - 1 = 6 := by norm_num [rainbowColors]
    rw [this]
    exact Int.le_floor.mpr (by push_cast; linarith)

/-- For a position strictly below 1, `get_rainbow_color` blends the two
anchors around segment `k = floor(6 * position)` channelwise. -/
theorem rainbow_blend_eq {p : ℚ} (hp : 0 ≤ p) (hp1 : p < 1) {k : ℕ}
    (hk : Int.floor (p * 6) = (k : ℤ)) :
    get_rainbow_color p =
      (blendChannel (rainbowColors.getD k (0, 0, 0)).1
        (rainbowColors.getD (k + 1) (0, 0, 0)).1 (p * 6 - (k : ℚ)),
       blendChannel (rainbowColors.getD k (0, 0, 0)).2.1
        (rainbowColors.getD (k + 1) (0, 0, 0)).2.1 (p * 6 - (k : ℚ)),
       blendChannel (rainbowColors.getD k (0, 0, 0)).2.2
        (rainbowColors.getD (k + 1) (0, 0, 0)).2.2 (p * 6 - (k : ℚ))) := by
  have h60 : (0 : ℚ) ≤ p * 6 := by linarith
  have h66 : p * 6 < 6 := by linarith
  have hk6 : (k : ℤ) < 6 := by
    rw [← hk]
    exact Int.floor_lt.mpr (by push_cast; linarith)
  simp only [get_rainbow_color]
  have hlen : ((rainbowColors.length : ℤ) : ℚ) - 1 = 6 := by norm_num [rainbowColors]
  rw [hlen, pyInt_of_nonneg h60, hk]
  rw [if_neg (by norm_num [rainbowColors]; omega)]
  rw [Int.toNat_natCast]
  norm_cast

theorem blendChannel_zero (a b : ℤ) : blendChannel a b 0 = a := by
  unfold blendChannel
  rw [show (a : ℚ) * (1 - 0) + (b : ℚ) * 0 = (a : ℚ) by ring, pyInt_intCast]

/-- For `0 ≤ p < 1` the blend segment index `floor(6p)` is a natural
number below 6 and the blend ratio lies in `[0, 1)`. -/
theorem exists_floor_index {p : ℚ} (h0 : 0 ≤ p) (h1 : p < 1) :
    ∃ k : ℕ, k < 6 ∧ Int.floor (p * 6) = (k : ℤ) ∧
      0 ≤ p * 6 - (k : ℚ) ∧ p * 6 - (k : ℚ) < 1 := by
  have h60 : (0 : ℚ) ≤ p * 6 := by linarith
  have hge : 0 ≤ Int.floor (p * 6) := Int.floor_nonneg.mpr h60
  have hlt : Int.floor (p * 6) < 6 := Int.floor_lt.mpr (by push_cast; linarith)
  have hcast : (((Int.floor (p * 6)).toNat : ℕ) : ℚ) = ((Int.floor (p * 6) : ℤ) : ℚ) := by
    rw [← Int.cast_natCast (R := ℚ), Int.toNat_of_nonneg hge]
  refine ⟨(Int.floor (p * 6)).toNat, by omega, by omega, ?_, ?_⟩
  · have hfl := Int.floor_le (p * 6)
    rw [hcast]
    linarith
  · have hfl := Int.lt_floor_add_one (p * 6)
    rw [hcast]
    linarith

/-- Every anchor of the palette (and the `getD` default) has all three
channels in `[0, 255]`. -/
theorem rainbowColors_getD_valid (k : ℕ) :
    0 ≤ (rainbowColors.getD k (0, 0, 0)).1 ∧ (rainbowColors.getD k (0, 0, 0)).1 ≤ 255 ∧
    0 ≤ (rainbowColors.getD k (0, 0, 0)).2.1 ∧ (rainbowColors.getD k (0, 0, 0)).2.1 ≤ 255 ∧
    0 ≤ (rainbowColors.getD k (0, 0, 0)).2.2 ∧ (rainbowColors.getD k (0, 0, 0)).2.2 ≤ 255 := by
  match k with
  | 0 => exact ⟨by decide, by decide, by decide, by decide, by decide, by decide⟩
  | 1 => exact ⟨by decide, by decide, by decide, by decide, by decide, by decide⟩
  | 2 => exact ⟨by decide, by decide, by decide, by decide, by decide, by decide⟩
  | 3 => exact ⟨by decide, by decide, by decide, by decide, by decide, by decide⟩
  | 4 => exact ⟨by decide, by decide, by decide, by decide, by decide, by decide⟩
  | 5 => exact ⟨by decide, by decide, by decide, by decide, by decide, by decide⟩
  | 6 => exact ⟨by decide, by decide, by decide, by decide, by decide, by decide⟩
  | n + 7 =>
    have hd : rainbowColors.getD (n + 7) (0, 0, 0) = (0, 0, 0) := by
      apply List.getD_eq_default
      simp [rainbowColors]
    rw [hd]
    exact ⟨by decide, by decide, by decide, by decide, by decide, by decide⟩

/-- A color all of whose channels lie in the 8-bit range. -/
def validColor (c : ℤ × ℤ × ℤ) : Prop :=
  0 ≤ c.1 ∧ c.1 ≤ 255 ∧ 0 ≤ c.2.1 ∧ c.2.1 ≤ 255 ∧ 0 ≤ c.2.2 ∧ c.2.2 ≤ 255

/-- Each channel of `c` lies between the corresponding channels of `lo`
and `hi`. -/
def channelsBetween (c lo hi : ℤ × ℤ × ℤ) : Prop :=
  min lo.1 hi.1 ≤ c.1 ∧ c.1 ≤ max lo.1 hi.1 ∧
  min lo.2.1 hi.2.1 ≤ c.2.1 ∧ c.2.1 ≤ max lo.2.1 hi.2.1 ∧
  min lo.2.2 hi.2.2 ≤ c.2.2 ∧ c.2.2 ≤ max lo.2.2 hi.2.2

/-- `c` is an exact convex combination of the colors `c1` and `c2`
(a single blend weight shared by all three channels). -/
def isConvexCombo (c c1 c2 : ℤ × ℤ × ℤ) : Prop :=
  ∃ lam : ℚ, 0 ≤ lam ∧ lam ≤ 1 ∧
    (c.1 : ℚ) = (1 - lam) * (c1.1 : ℚ) + lam * (c2.1 : ℚ) ∧
    (c.2.1 : ℚ) = (1 - lam) * (c1.2.1 : ℚ) + lam * (c2.2.1 : ℚ) ∧
    (c.2.2 : ℚ) = (1 - lam) * (c1.2.2 : ℚ) + lam * (c2.2.2 : ℚ)

theorem get_rainbow_color_three_quarters :
    get_rainbow_color (3 / 4) = (37, 63, 192) := by
  have h : Int.floor ((3 / 4 : ℚ) * 6) = ((4 : ℕ) : ℤ) := by norm_num
  have hb := rainbow_blend_eq (p := 3 / 4) (by norm_num) (by norm_num) h
  have e4 : rainbowColors.getD 4 (0, 0, 0) = (0, 127, 255) := rfl
  have e5 : rainbowColors.getD (4 + 1) (0, 0, 0) = (75, 0, 130) := rfl
  rw [hb, e4, e5]
  norm_num [blendChannel, pyInt, ratFloor_eq_intFloor]

/-- C2 (counterexample): at position 3/4, which lies strictly between the
anchors at 4/6 (blue) and 5/6 (indigo), the returned color (37, 63, 192)
is not an exact convex combination of those two anchors: the red channel
forces the weight 37/75 while the green channel forces 64/127. -/
theorem C2_counterexample :
    (4 : ℚ) / 6 < 3 / 4 ∧ (3 : ℚ) / 4 < 5 / 6 ∧
    rainbowColors.getD 4 (0, 0, 0) = (0, 127, 255) ∧
    rainbowColors.getD 5 (0, 0, 0) = (75, 0, 130) ∧
    get_rainbow_color (3 / 4) = (37, 63, 192) ∧
    ¬ isConvexCombo (get_rainbow_color (3 / 4)) (0, 127, 255) (75, 0, 130) := by
  refine ⟨by norm_num, by norm_num, rfl, rfl, get_rainbow_color_three_quarters, ?_⟩
  rw [get_rainbow_color_three_quarters]
  rintro ⟨lam, hl0, hl1, hr, hg, hb⟩
  norm_num at hr hg
  linarith

/-- C2 (amended): `get_rainbow_color 0` is exactly the first anchor;
any position at or above 1 returns exactly the last anchor; and a position
strictly between the anchors at `k/6` and `(k+1)/6` returns the channelwise
integer-truncated blend of exactly those two anchors, so each channel lies
between the corresponding channels of the two bounding anchors. -/
theorem C2_rainbow_interpolation :
    get_rainbow_color 0 = (255, 0, 0) ∧
    (∀ p : ℚ, 1 ≤ p → get_rainbow_color p = (148, 0, 211)) ∧
    (∀ (p : ℚ) (k : ℕ), k < 6 → (k : ℚ) / 6 < p → p < ((k : ℚ) + 1) / 6 →
      get_rainbow_color p =
        (blendChannel (rainbowColors.getD k (0, 0, 0)).1
          (rainbowColors.getD (k + 1) (0, 0, 0)).1 (p * 6 - (k : ℚ)),
         blendChannel (rainbowColors.getD k (0, 0, 0)).2.1
          (rainbowColors.getD (k + 1) (0, 0, 0)).2.1 (p * 6 - (k : ℚ)),
         blendChannel (rainbowColors.getD k (0, 0, 0)).2.2
          (rainbowColors.getD (k + 1) (0, 0, 0)).2.2 (p * 6 - (k : ℚ))) ∧
      channelsBetween (get_rainbow_color p)
        (rainbowColors.getD k (0, 0, 0)) (rainbowColors.getD (k + 1) (0, 0, 0))) := by
  refine ⟨?_, fun p hp => rainbow_top hp, ?_⟩
  · have h : Int.floor ((0 : ℚ) * 6) = ((0 : ℕ) : ℤ) := by norm_num
    have hb := rainbow_blend_eq (p := 0) le_rfl (by norm_num) h
    have e0 : rainbowColors.getD 0 (0, 0, 0) = (255, 0, 0) := rfl
    have e1 : rainbowColors.getD (0 + 1) (0, 0, 0) = (255, 127, 0) := rfl
    rw [hb, e0, e1]
    norm_num [blendChannel_zero]
  · intro p k hk6 hlo hhi
    have hp0 : 0 ≤ p := le_trans (by positivity) (le_of_lt hlo)
    have hp1 : p < 1 := by
      have : ((k : ℚ) + 1) / 6 ≤ 1 := by
        have : (k : ℚ) ≤ 5 := by exact_mod_cast Nat.lt_succ_iff.mp hk6
        linarith
      linarith
    have hfl : Int.floor (p * 6) = (k : ℤ) := by
      rw [Int.floor_eq_iff]
      constructor
      · push_cast
        nlinarith
      · push_cast
        nlinarith
    have hb := rainbow_blend_eq hp0 hp1 hfl
    have hρ0 : 0 ≤ p * 6 - (k : ℚ) := by
      have h := Int.floor_le (p * 6)
      rw [hfl] at h
      push_cast at h
      linarith
    have hρ1 : p * 6 - (k : ℚ) ≤ 1 := by
      have := Int.lt_floor_add_one (p * 6)
      rw [hfl] at this
      push_cast at this
      linarith
    refine ⟨hb, ?_⟩
    rw [hb]
    unfold channelsBetween
    exact ⟨(blendChannel_bounds hρ0 hρ1).1, (blendChannel_bounds hρ0 hρ1).2,
           (blendChannel_bounds hρ0 hρ1).1, (blendChannel_bounds hρ0 hρ1).2,
           (blendChannel_bounds hρ0 hρ1).1, (blendChannel_bounds hρ0 hρ1).2⟩

/-- C2 (witness): the amended theorem applied at position 2 (clamped top
anchor) and at position 1/12 (midpoint of the red-orange segment). -/
theorem C2_witness :
    get_rainbow_color 2 = (148, 0, 211) ∧
    channelsBetween (get_rainbow_color (1 / 12)) (255, 0, 0) (255, 127, 0) := by
  refine ⟨C2_rainbow_interpolation.2.1 2 (by norm_num), ?_⟩
  exact (C2_rainbow_interpolation.2.2 (1 / 12) 0 (by norm_num) (by norm_num)
    (by norm_num)).2

/-- C9: for every position with `0 ≤ p ≤ 1` every channel of the color
returned by `get_rainbow_color` is an integer in `[0, 255]`; the
integer-truncating blend never leaves that range. -/
theorem C9_rainbow_color_in_range (p : ℚ) (h0 : 0 ≤ p) (h1 : p ≤ 1) :
    validColor (get_rainbow_color p) := by
  rcases lt_or_eq_of_le h1 with hlt | heq
  case inr =>
    rw [rainbow_top (le_of_eq heq.symm)]
    exact ⟨by decide, by decide, by decide, by decide, by decide, by decide⟩
  · obtain ⟨k, hk6, hk, hρ0, hρ1⟩ := exists_floor_index h0 hlt
    rw [rainbow_blend_eq h0 hlt hk]
    obtain ⟨a1, a2, a3, a4, a5, a6⟩ := rainbowColors_getD_valid k
    obtain ⟨b1, b2, b3, b4, b5, b6⟩ := rainbowColors_getD_valid (k + 1)
    have hbc := fun (a b : ℤ) => blendChannel_bounds (a := a) (b := b) hρ0 (le_of_lt hρ1)
    refine ⟨?_, ?_, ?_, ?_, ?_, ?_⟩
    · exact le_trans (le_min a1 b1) (hbc _ _).1
    · exact le_trans (hbc _ _).2 (max_le a2 b2)
    · exact le_trans (le_min a3 b3) (hbc _ _).1
    · exact le_trans (hbc _ _).2 (max_le a4 b4)
    · exact le_trans (le_min a5 b5) (hbc _ _).1
    · exact le_trans (hbc _ _).2 (max_le a6 b6)

/-- C9 (witness): the range theorem applied at position 0. -/
theorem C9_witness :
    (0 : ℚ) ≤ 0 ∧ (0 : ℚ) ≤ 1 ∧ validColor (get_rainbow_color 0) :=
  ⟨le_rfl, by norm_num, C9_rainbow_color_in_range 0 le_rfl (by norm_num)⟩

/-- For every position strictly below 1 the returned color is never the
exact violet anchor. -/
theorem rainbow_ne_violet {p : ℚ} (h0 : 0 ≤ p) (h1 : p < 1) :
    get_rainbow_color p ≠ (148, 0, 211) := by
  obtain ⟨k, hk6, hk, hρ0, hρ1⟩ := exists_floor_index h0 h1
  rw [rainbow_blend_eq h0 h1 hk]
  interval_cases k
  · intro h
    simp only [Prod.mk.injEq] at h
    have h1 := h.1
    rw [show rainbowColors.getD 0 (0, 0, 0) = (255, 0, 0) from rfl,
        show rainbowColors.getD (0 + 1) (0, 0, 0) = (255, 127, 0) from rfl] at h1
    rw [blendChannel_same] at h1
    norm_num at h1
  · intro h
    simp only [Prod.mk.injEq] at h
    have h1 := h.1
    rw [show rainbowColors.getD 1 (0, 0, 0) = (255, 127, 0) from rfl,
        show rainbowColors.getD (1 + 1) (0, 0, 0) = (255, 255, 0) from rfl] at h1
    rw [blendChannel_same] at h1
    norm_num at h1
  · intro h
    simp only [Prod.mk.injEq] at h
    have h2 := h.2.1
    rw [show rainbowColors.getD 2 (0, 0, 0) = (255, 255, 0) from rfl,
        show rainbowColors.getD (2 + 1) (0, 0, 0) = (0, 255, 0) from rfl] at h2
    rw [blendChannel_same] at h2
    norm_num at h2
  · intro h
    simp only [Prod.mk.injEq] at h
    have h1 := h.1
    rw [show rainbowColors.getD 3 (0, 0, 0) = (0, 255, 0) from rfl,
        show rainbowColors.getD (3 + 1) (0, 0, 0) = (0, 127, 255) from rfl] at h1
    rw [blendChannel_same] at h1
    norm_num at h1
  · intro h
    simp only [Prod.mk.injEq] at h
    have hfst := h.1
    rw [show (rainbowColors.getD 4 (0, 0, 0)).1 = 0 from rfl,
        show (rainbowColors.getD (4 + 1) (0, 0, 0)).1 = 75 from rfl] at hfst
    have hlt := blendChannel_lt_right (a := 0) (b := 75) (by norm_num) le_rfl hρ0 hρ1
    omega
  · intro h
    simp only [Prod.mk.injEq] at h
    have hfst := h.1
    rw [show (rainbowColors.getD 5 (0, 0, 0)).1 = 75 from rfl,
        show (rainbowColors.getD (5 + 1) (0, 0, 0)).1 = 148 from rfl] at hfst
    have hlt := blendChannel_lt_right (a := 75) (b := 148) (by norm_num) (by norm_num) hρ0 hρ1
    omega

/-- C10: the stroke loop iterates over exactly the `n-1` consecutive index
pairs `(i, i+1)` of the `n` sampled points; the closing pair
`(n-1, 0)` is never drawn; the position fed to the rainbow interpolator
for segment `i` is `i/n`, always strictly below 1, so no drawn segment has
the exact violet anchor color. -/
theorem C10_stroke_segments (n : ℕ) :
    (drawnSegmentPairs n).length = n - 1 ∧
    (∀ j : ℕ, j < n - 1 → (drawnSegmentPairs n).getD j (0, 0) = (j, j + 1)) ∧
    (n - 1, 0) ∉ drawnSegmentPairs n ∧
    (∀ i : ℕ, i < n - 1 →
      segmentPosition n i = (i : ℚ) / (n : ℚ) ∧
      segmentPosition n i < 1 ∧
      get_rainbow_color (segmentPosition n i) ≠ (148, 0, 211)) := by
  refine ⟨by simp [drawnSegmentPairs], ?_, ?_, ?_⟩
  · intro j hj
    unfold drawnSegmentPairs
    rw [List.getD_eq_getElem?_getD, List.getElem?_map, List.getElem?_range hj]
    rfl
  · intro hmem
    unfold drawnSegmentPairs at hmem
    obtain ⟨i, _, heq⟩ := List.mem_map.mp hmem
    simp only [Prod.mk.injEq] at heq
    omega
  · intro i hi
    have hn : 0 < n := by omega
    have hnq : (0 : ℚ) < (n : ℚ) := by exact_mod_cast hn
    have hiq : (i : ℚ) < (n : ℚ) := by exact_mod_cast (by omega : i < n)
    have hpos0 : 0 ≤ segmentPosition n i := by
      unfold segmentPosition
      positivity
    have hpos1 : segmentPosition n i < 1 := by
      unfold segmentPosition
      rw [div_lt_one hnq]
      exact hiq
    exact ⟨rfl, hpos1, rainbow_ne_violet hpos0 hpos1⟩

/-- C10 (witness): the segment theorem applied at the pipeline's actual
point count 400 and segments 0 and 398. -/
theorem C10_witness :
    (drawnSegmentPairs 400).length = 399 ∧
    (drawnSegmentPairs 400).getD 0 (0, 0) = (0, 1) ∧
    (399, 0) ∉ drawnSegmentPairs 400 ∧
    get_rainbow_color (segmentPosition 400 398) ≠ (148, 0, 211) := by
  obtain ⟨hlen, hget, hmem, hpos⟩ := C10_stroke_segments 400
  exact ⟨hlen, hget 0 (by norm_num), hmem, (hpos 398 (by norm_num)).2.2⟩

/-- Floor division by 2 on integers, characterized through natural
division: `(-w) // 2 = -((w+1)/2)` and `w // 2 = w/2` for `w : ℕ`. -/
theorem fdiv_two_char (w : ℕ) :
    Int.fdiv (-(w : ℤ)) 2 = -((((w + 1) / 2 : ℕ)) : ℤ) ∧
    Int.fdiv (w : ℤ) 2 = (((w / 2 : ℕ)) : ℤ) := by
  constructor
  · cases w with
    | zero => rfl
    | succ m =>
      have hns : (-((m + 1 : ℕ) : ℤ)) = Int.negSucc m := by
        rw [Int.negSucc_eq]
        push_cast
        ring
      rw [hns]
      have hred : Int.fdiv (Int.negSucc m) 2 = Int.negSucc (m / 2) := rfl
      rw [hred, Int.negSucc_eq]
      have : (m + 1 + 1) / 2 = m / 2 + 1 := by omega
      rw [this]
      push_cast
      ring
  · have h := Int.ofNat_fdiv w 2
    exact h.symm

theorem line_width_1024 : line_width 1024 = 81 := by
  norm_num [line_width, pyInt, ratFloor_eq_intFloor]

/-- C3 (counterexample): at the pipeline's actual stroke width
(`line_width 1024 = 81`) the offset set used by the thick stroke renderer
contains -41 but not 41, so it is not symmetric about zero. -/
theorem C3_counterexample :
    line_width 1024 = 81 ∧
    (-41 : ℤ) ∈ strokeOffsets 81 ∧
    (41 : ℤ) ∉ strokeOffsets 81 := by
  refine ⟨line_width_1024, ?_, ?_⟩
  · unfold strokeOffsets
    rw [mem_pythonRange]
    exact ⟨by decide, by decide⟩
  · unfold strokeOffsets
    rw [mem_pythonRange]
    decide

/-- C3 (amended): the stroke loop applies every offset of the half-open
integer range `[-(w+1)/2, w/2)` in both the x and the y direction (two
1-pixel line copies per offset), but the offset set is one pixel short of
symmetric about zero: it contains its lower end `-((w+1)/2)` while missing
that value's mirror image. -/
theorem C3_stroke_offsets (w : ℤ) (hw : 1 ≤ w) (x1 y1 x2 y2 : ℚ) :
    (∀ o : ℤ, o ∈ strokeOffsets w ↔ Int.fdiv (-w) 2 ≤ o ∧ o < Int.fdiv w 2) ∧
    (∀ o : ℤ, o ∈ strokeOffsets w →
      (Seg.mk (x1, y1 + (o : ℚ)) (x2, y2 + (o : ℚ)) ∈ thickSegmentLines x1 y1 x2 y2 w ∧
       Seg.mk (x1 + (o : ℚ), y1) (x2 + (o : ℚ), y2) ∈ thickSegmentLines x1 y1 x2 y2 w)) ∧
    Int.fdiv (-w) 2 ∈ strokeOffsets w ∧
    -(Int.fdiv (-w) 2) ∉ strokeOffsets w := by
  lift w to ℕ using (by omega)
  obtain ⟨hneg, hpos⟩ := fdiv_two_char w
  refine ⟨fun o => mem_pythonRange, ?_, ?_, ?_⟩
  · intro o ho
    constructor
    · exact List.mem_flatMap.mpr ⟨o, ho, by simp⟩
    · exact List.mem_flatMap.mpr ⟨o, ho, by simp⟩
  · unfold strokeOffsets
    rw [mem_pythonRange, hneg, hpos]
    constructor
    · omega
    · have hw' : 1 ≤ w := by exact_mod_cast hw
      omega
  · unfold strokeOffsets
    rw [mem_pythonRange, hneg, hpos]
    intro hcon
    omega

/-- C3 (witness): the amended offset theorem applied at stroke width 3. -/
theorem C3_witness :
    (1 : ℤ) ≤ 3 ∧
    Int.fdiv (-3 : ℤ) 2 ∈ strokeOffsets 3 ∧
    -(Int.fdiv (-3 : ℤ) 2) ∉ strokeOffsets 3 :=
  ⟨by decide, (C3_stroke_offsets 3 (by decide) 0 0 1 1).2.2.1,
   (C3_stroke_offsets 3 (by decide) 0 0 1 1).2.2.2⟩

end IconB

namespace IconA

open Tracker

theorem glowAlpha_vals :
    glowAlpha 0 = 30 ∧ glowAlpha 1 = 28 ∧ glowAlpha 2 = 27 := by
  refine ⟨?_, ?_, ?_⟩ <;>
    norm_num [glowAlpha, pyInt, ratFloor_eq_intFloor]

/-- C4 (counterexample): the glow alphas are `int(30 - i*1.5)`, whose
successive differences are not a fixed step: the first step is 2
(30 → 28) but the second is 1 (28 → 27). -/
theorem C4_counterexample :
    glowAlpha 0 = 30 ∧ glowAlpha 1 = 28 ∧ glowAlpha 2 = 27 ∧
    ¬ ∃ step : ℤ, ∀ i : ℕ, i < 19 → glowAlpha i - glowAlpha (i + 1) = step := by
  obtain ⟨h0, h1, h2⟩ := glowAlpha_vals
  refine ⟨h0, h1, h2, ?_⟩
  rintro ⟨s, hs⟩
  have e1 := hs 0 (by norm_num)
  have e2 := hs 1 (by norm_num)
  rw [h0, h1] at e1
  rw [h1, h2] at e2
  omega

/-- C4 (amended): the radial glow loop draws exactly 20 concentric
circles; each successive radius is smaller than the previous by the fixed
step 5; each successive alpha is strictly lower than the previous, but the
alpha steps alternate between 2 and 1 (truncated 1.5) instead of being a
fixed constant. -/
theorem C4_glow_circles (size : ℕ) :
    (glowCircles size).length = 20 ∧
    (∀ i : ℕ, i < 19 → glowRadius size (i + 1) = glowRadius size i - 5) ∧
    (∀ i : ℕ, i < 19 → glowAlpha (i + 1) < glowAlpha i ∧
      glowAlpha i - glowAlpha (i + 1) = if i % 2 = 0 then 2 else 1) := by
  refine ⟨by simp [glowCircles], ?_, ?_⟩
  · intro i hi
    unfold glowRadius
    push_cast
    ring
  · intro i hi
    interval_cases i <;>
      refine ⟨?_, ?_⟩ <;>
        norm_num [glowAlpha, pyInt, ratFloor_eq_intFloor]

/-- C4 (witness): the amended glow theorem applied at size 1024 and the
first two steps. -/
theorem C4_witness :
    (glowCircles 1024).length = 20 ∧
    glowRadius 1024 1 = glowRadius 1024 0 - 5 ∧
    glowAlpha 1 < glowAlpha 0 ∧
    glowAlpha 1 - glowAlpha 2 = if 1 % 2 = 0 then 2 else 1 := by
  obtain ⟨hlen, hrad, halpha⟩ := C4_glow_circles 1024
  exact ⟨hlen, hrad 0 (by norm_num), (halpha 0 (by norm_num)).1,
    (halpha 1 (by norm_num)).2⟩

theorem pyInt_mono_nonneg {q r : ℚ} (hq : 0 ≤ q) (hqr : q ≤ r) :
    pyInt q ≤ pyInt r := by
  rw [pyInt_of_nonneg hq, pyInt_of_nonneg (le_trans hq hqr)]
  exact Int.floor_le_floor hqr

/-- C5: for every size ≥ 1 and nonnegative endpoint channels, every
scanline channel of Pipeline A's vertical linear gradient stays within
`[min c1 c2, max c1 c2]` (no overshoot), starts exactly at `c1`, and
varies monotonically from `c1` toward `c2` as `y` increases. -/
theorem C5_gradient_monotone (c1 c2 : ℤ) (h1 : 0 ≤ c1) (h2 : 0 ≤ c2)
    (size : ℕ) (hs : 1 ≤ size) :
    (∀ y : ℕ, y < size →
      min c1 c2 ≤ gradChannel c1 c2 y size ∧ gradChannel c1 c2 y size ≤ max c1 c2) ∧
    gradChannel c1 c2 0 size = c1 ∧
    (∀ y y' : ℕ, y ≤ y' → y' < size →
      (c1 ≤ c2 → gradChannel c1 c2 y size ≤ gradChannel c1 c2 y' size) ∧
      (c2 ≤ c1 → gradChannel c1 c2 y' size ≤ gradChannel c1 c2 y size)) := by
  have hsq : (0 : ℚ) < (size : ℚ) := by exact_mod_cast hs
  have hu : ∀ y : ℕ, y < size → 0 ≤ (y : ℚ) / (size : ℚ) ∧ (y : ℚ) / (size : ℚ) ≤ 1 := by
    intro y hy
    constructor
    · positivity
    · rw [div_le_one hsq]
      exact_mod_cast le_of_lt hy
  refine ⟨?_, ?_, ?_⟩
  · intro y hy
    obtain ⟨hu0, hu1⟩ := hu y hy
    unfold gradChannel
    refine pyInt_bounds ?_ ?_
    · push_cast
      rw [mul_div_assoc]
      rcases le_total (c1 : ℚ) (c2 : ℚ) with hcc | hcc
      · rw [min_eq_left (by exact_mod_cast hcc)]
        nlinarith [mul_nonneg (sub_nonneg.mpr hcc) hu0]
      · rw [min_eq_right (by exact_mod_cast hcc)]
        nlinarith [mul_nonneg (sub_nonneg.mpr hcc) (sub_nonneg.mpr hu1)]
    · push_cast
      rw [mul_div_assoc]
      rcases le_total (c1 : ℚ) (c2 : ℚ) with hcc | hcc
      · rw [max_eq_right (by exact_mod_cast hcc)]
        nlinarith [mul_nonneg (sub_nonneg.mpr hcc) (sub_nonneg.mpr hu1)]
      · rw [max_eq_left (by exact_mod_cast hcc)]
        nlinarith [mul_nonneg (sub_nonneg.mpr hcc) hu0]
  · unfold gradChannel
    rw [show (c1 : ℚ) + ((c2 : ℚ) - (c1 : ℚ)) * ((0 : ℕ) : ℚ) / (size : ℚ) = (c1 : ℚ) by
      push_cast; ring, pyInt_intCast]
  · intro y y' hyy hy'
    have hy : y < size := lt_of_le_of_lt hyy hy'
    obtain ⟨hu0, hu1⟩ := hu y hy
    obtain ⟨hv0, hv1⟩ := hu y' hy'
    have huv : (y : ℚ) / (size : ℚ) ≤ (y' : ℚ) / (size : ℚ) := by
      gcongr
    have h1' : (0 : ℚ) ≤ (c1 : ℚ) := by exact_mod_cast h1
    have h2' : (0 : ℚ) ≤ (c2 : ℚ) := by exact_mod_cast h2
    constructor
    · intro hcc
      have hcc' : (c1 : ℚ) ≤ (c2 : ℚ) := by exact_mod_cast hcc
      unfold gradChannel
      apply pyInt_mono_nonneg
      · rw [mul_div_assoc]
        nlinarith [mul_nonneg (sub_nonneg.mpr hcc') hu0]
      · rw [mul_div_assoc, mul_div_assoc]
        nlinarith [mul_nonneg (sub_nonneg.mpr hcc') (sub_nonneg.mpr huv)]
    · intro hcc
      have hcc' : (c2 : ℚ) ≤ (c1 : ℚ) := by exact_mod_cast hcc
      unfold gradChannel
      apply pyInt_mono_nonneg
      · rw [mul_div_assoc]
        nlinarith [mul_nonneg (sub_nonneg.mpr hcc') (sub_nonneg.mpr hu1)]
      · rw [mul_div_assoc, mul_div_assoc]
        nlinarith [mul_nonneg (sub_nonneg.mpr hcc') (sub_nonneg.mpr huv)]

/-- C5 (witness): the gradient theorem applied to the blue channel of the
actual gradient (213 → 214) at size 20 and scanlines 0, 5, 10. -/
theorem C5_witness :
    ((0 : ℤ) ≤ 58 ∧ (0 : ℤ) ≤ 88 ∧ (1 : ℕ) ≤ 20) ∧
    (min 58 88 ≤ gradChannel 58 88 5 20 ∧ gradChannel 58 88 5 20 ≤ max 58 88) ∧
    gradChannel 58 88 0 20 = 58 ∧
    gradChannel 58 88 5 20 ≤ gradChannel 58 88 10 20 := by
  obtain ⟨hbounds, hstart, hmono⟩ :=
    C5_gradient_monotone 58 88 (by decide) (by decide) 20 (by decide)
  exact ⟨⟨by decide, by decide, by decide⟩, hbounds 5 (by decide), hstart,
    (hmono 5 10 (by decide) (by decide)).1 (by decide)⟩

/-- C1 (the code at the failing input): at size 20 the radial glow loop's
iteration `i = 3` computes radius `20 // 2 - 3*5 = -5`, so the ellipse
bounding box `[cx - r, cy - r, cx + r, cy + r] = [15, 15, 5, 5]` is
inverted and the draw call violates PIL's documented bounding-box
precondition (`ValueError`), contradicting the claim that every drawing
step of the size-20 pipeline is well-defined. -/
theorem C1_glow_negative_radius :
    glowRadius 20 3 = -5 ∧
    ¬ glowStepOK 20 3 ∧
    ∃ i : ℕ, i < 20 ∧ ¬ glowStepOK 20 i :=
  ⟨by decide, by decide, 3, by decide, by decide⟩

end IconA

/-- C8: every canvas allocated during one icon generation of either
pipeline is square with side exactly the requested size, every
alpha-composite step of Pipeline A is size-compatible, and both pipelines
return/export an image of dimensions exactly (size, size). -/
theorem C8_square_canvases (size : ℕ) :
    IconA.create_icon_allocs size = List.replicate 6 (size, size) ∧
    IconA.create_icon_dims size = some (size, size) ∧
    IconB.create_app_icon_allocs size = List.replicate 4 (size, size) ∧
    IconB.create_app_icon_dims size = (size, size) := by
  refine ⟨rfl, ?_, rfl, rfl⟩
  simp [IconA.create_icon_dims, IconA.alphaCompositeDims]

namespace Tracker

theorem cornerRad_bounds {size radius : ℕ} (hs : 2 ≤ size) (hr : 1 ≤ radius) :
    1 ≤ cornerRad size radius ∧ 2 * cornerRad size radius ≤ (size : ℚ) := by
  have hsq : (2 : ℚ) ≤ (size : ℚ) := by exact_mod_cast hs
  have hrq : (1 : ℚ) ≤ (radius : ℚ) := by exact_mod_cast hr
  unfold cornerRad
  constructor
  · have h1 : (2 : ℚ) ≤ min (2 * (radius : ℚ)) (size : ℚ) :=
      le_min (by linarith) hsq
    linarith
  · have h2 : min (2 * (radius : ℚ)) (size : ℚ) ≤ (size : ℚ) := min_le_right _ _
    linarith

/-- The center pixel of a canvas of size at least 2 lies inside the
rounded-rectangle region for every positive corner radius. -/
theorem inRoundedRect_center {size radius : ℕ} (hs : 2 ≤ size) (hr : 1 ≤ radius) :
    inRoundedRect size radius ((size / 2 : ℕ) : ℚ) ((size / 2 : ℕ) : ℚ) := by
  obtain ⟨hR1, hR2⟩ := cornerRad_bounds hs hr
  have hsq : (2 : ℚ) ≤ (size : ℚ) := by exact_mod_cast hs
  have hc1 : (size : ℚ) ≤ 2 * ((size / 2 : ℕ) : ℚ) + 1 := by
    have : size ≤ 2 * (size / 2) + 1 := by omega
    exact_mod_cast this
  have hc2 : 2 * ((size / 2 : ℕ) : ℚ) ≤ (size : ℚ) := by
    have : 2 * (size / 2) ≤ size := by omega
    exact_mod_cast this
  unfold inRoundedRect
  set R := cornerRad size radius with hRdef
  set c : ℚ := ((size / 2 : ℕ) : ℚ) with hcdef
  rcases le_or_lt R c with hRc | hRc
  · left
    exact ⟨hRc, by linarith⟩
  · right; right; left
    have hd1 : 0 < R - c := by linarith
    have hd2 : R - c ≤ 1 / 2 := by linarith
    nlinarith [sq_nonneg (R - c)]

/-- The corner pixel (0, 0) lies outside the rounded-rectangle region for
every positive corner radius on a canvas of size at least 2. -/
theorem not_inRoundedRect_corner {size radius : ℕ} (hs : 2 ≤ size) (hr : 1 ≤ radius) :
    ¬ inRoundedRect size radius 0 0 := by
  obtain ⟨hR1, hR2⟩ := cornerRad_bounds hs hr
  have hsq : (2 : ℚ) ≤ (size : ℚ) := by exact_mod_cast hs
  unfold inRoundedRect
  set R := cornerRad size radius with hRdef
  rintro (⟨h1, _⟩ | ⟨h1, _⟩ | h | h | h | h)
  · linarith
  · linarith
  · nlinarith
  · nlinarith
  · nlinarith
  · nlinarith

/-- C6 (counterexample): at canvas size 1 the exact center pixel
`(size // 2, size // 2) = (0, 0)` IS the corner pixel, so the claim's
instance at size 1 with radius 1 demands the same mask pixel to be both
255 (opaque center) and 0 (transparent corner), which is impossible. -/
theorem C6_counterexample :
    centerPixel 1 = 0 ∧
    ¬ (maskValue 1 1 (centerPixel 1) (centerPixel 1) = 255 ∧
       maskValue 1 1 0 0 = 0) := by
  refine ⟨rfl, ?_⟩
  rintro ⟨h255, h0⟩
  rw [show centerPixel 1 = 0 from rfl] at h255
  rw [h255] at h0
  exact absurd h0 (by norm_num)

/-- C6 (amended): for every canvas size ≥ 2 and every corner radius ≥ 1,
the rounded-corner mask built by either pipeline has value 255 at the
exact center pixel `(size // 2, size // 2)` and value 0 at the corner
pixel (0, 0). -/
theorem C6_mask_center_corner (size radius : ℕ) (hs : 2 ≤ size) (hr : 1 ≤ radius) :
    maskValue size radius (centerPixel size) (centerPixel size) = 255 ∧
    maskValue size radius 0 0 = 0 := by
  constructor
  · unfold maskValue centerPixel
    rw [if_pos (inRoundedRect_center hs hr)]
  · unfold maskValue
    rw [if_neg]
    rw [Nat.cast_zero]
    exact not_inRoundedRect_corner hs hr

/-- C6 (witness): the mask theorem applied at size 20 with the radius the
pipelines actually use there, `corner_radius 20 = int(20 * 0.2237) = 4`. -/
theorem C6_witness :
    corner_radius 20 = 4 ∧
    maskValue 20 4 (centerPixel 20) (centerPixel 20) = 255 ∧
    maskValue 20 4 0 0 = 0 := by
  refine ⟨?_, (C6_mask_center_corner 20 4 (by decide) (by decide)).1,
    (C6_mask_center_corner 20 4 (by decide) (by decide)).2⟩
  norm_num [corner_radius, pyInt, ratFloor_eq_intFloor]

end Tracker

namespace IconB

open Tracker

theorem cos_two_pi_sub (x : ℝ) : Real.cos (2 * Real.pi - x) = Real.cos x := by
  rw [Real.cos_sub, Real.cos_two_pi, Real.sin_two_pi]
  ring

theorem sin_two_pi_sub (x : ℝ) : Real.sin (2 * Real.pi - x) = -Real.sin x := by
  rw [Real.sin_sub, Real.sin_two_pi, Real.cos_two_pi]
  ring

/-- C7: `draw_infinity_symbol` produces an ordered list of exactly `N`
points sampled at parameters `t_i = 2πi/N`, uniformly spaced with step
`2π/N` over one revolution, and the sequence is closed: the squared
distance between the first point (t = 0) and the last point
(t = 2π(N-1)/N) equals the squared distance between the first two
consecutive points, so the first-to-last distance is at most one sampling
step. -/
theorem C7_lemniscate_closed (cx cy w h : ℝ) (N : ℕ) (hN : 2 ≤ N) :
    (draw_infinity_symbol cx cy w h N).length = N ∧
    (∀ i : ℕ, i < N → (draw_infinity_symbol cx cy w h N).getD i (0, 0) =
      lemPoint cx cy w h N i) ∧
    (∀ i : ℕ, i + 1 < N →
      2 * Real.pi * (((i + 1 : ℕ)) : ℝ) / (N : ℝ)
        - 2 * Real.pi * ((i : ℕ) : ℝ) / (N : ℝ) = 2 * Real.pi / (N : ℝ)) ∧
    dist2 (lemPoint cx cy w h N 0) (lemPoint cx cy w h N (N - 1))
      = dist2 (lemPoint cx cy w h N 0) (lemPoint cx cy w h N 1) ∧
    Real.sqrt (dist2 (lemPoint cx cy w h N 0) (lemPoint cx cy w h N (N - 1)))
      ≤ Real.sqrt (dist2 (lemPoint cx cy w h N 0) (lemPoint cx cy w h N 1)) := by
  have hN0 : (N : ℝ) ≠ 0 := Nat.cast_ne_zero.mpr (by omega)
  have key : dist2 (lemPoint cx cy w h N 0) (lemPoint cx cy w h N (N - 1))
      = dist2 (lemPoint cx cy w h N 0) (lemPoint cx cy w h N 1) := by
    have hcast : ((N - 1 : ℕ) : ℝ) = (N : ℝ) - 1 := by
      have : (1 : ℕ) ≤ N := by omega
      push_cast [this]
      ring
    have ht : 2 * Real.pi * ((N - 1 : ℕ) : ℝ) / (N : ℝ)
        = 2 * Real.pi - 2 * Real.pi * ((1 : ℕ) : ℝ) / (N : ℝ) := by
      rw [hcast]
      push_cast
      field_simp
      ring
    simp only [dist2, lemPoint]
    rw [ht, cos_two_pi_sub, sin_two_pi_sub]
    have h0 : 2 * Real.pi * ((0 : ℕ) : ℝ) / (N : ℝ) = 0 := by
      push_cast
      ring
    rw [h0, Real.cos_zero, Real.sin_zero]
    ring
  refine ⟨by simp [draw_infinity_symbol], ?_, ?_, key, Real.sqrt_le_sqrt (le_of_eq key)⟩
  · intro i hi
    unfold draw_infinity_symbol
    rw [List.getD_eq_getElem?_getD, List.getElem?_map, List.getElem?_range hi]
    rfl
  · intro i hi
    push_cast
    field_simp
    ring

/-- C7 (witness): the sampler theorem applied at N = 2 with a unit-size
symbol centered at the origin. -/
theorem C7_witness :
    (2 : ℕ) ≤ 2 ∧
    (draw_infinity_symbol 0 0 1 1 2).length = 2 ∧
    Real.sqrt (dist2 (lemPoint 0 0 1 1 2 0) (lemPoint 0 0 1 1 2 (2 - 1)))
      ≤ Real.sqrt (dist2 (lemPoint 0 0 1 1 2 0) (lemPoint 0 0 1 1 2 1)) :=
  ⟨le_rfl, (C7_lemniscate_closed 0 0 1 1 2 le_rfl).1,
   (C7_lemniscate_closed 0 0 1 1 2 le_rfl).2.2.2.2⟩

end IconB
